import Mathlib

/-!
Verification development for `racelogic-ref-to-dbc` (`src/main.go`).

The program is embedded shallowly:
* Go byte streams and Go strings are `List Nat` (byte values; the inputs the
  program cares about are ASCII, see the notes on the individual definitions).
* the `bufio.Reader` consuming the input file is modelled as the list of bytes
  still unread, together with a flag `e : Bool` telling whether the byte
  source fails with a non-EOF I/O error once the bytes are exhausted
  (`e = false` is a well-behaved file that ends in a clean EOF).
* zlib decompression (`compress/zlib` via `decompressZlib`) is an opaque
  effect-free function and is modelled as an explicit parameter
  `d : List Nat → Option (List Nat)`: `none` is a failed decompression,
  `some bs` a successful one with output `bs`.
* fallible reads return `Except RErr`, fatal container-level failures `none`.
-/

set_option maxRecDepth 100000

/-! ### Byte-string helpers (Go `strings` / `bufio.Scanner` semantics) -/

/-- ASCII bytes of a Lean string literal (used only for ASCII literals that
appear in `main.go`, where Go's UTF-8 representation coincides with the
code points). -/
def bytesOf (s : String) : List Nat :=
  s.data.map Char.toNat

/-- Go `strings.ToLower`, restricted to its action on ASCII bytes.  The inputs
compared by `main.go` after lowering (`"signed"`, `"intel"`) contain only ASCII
letters, and no non-ASCII code point lowers to any of those letters, so the
byte-wise model agrees with Go on the comparisons the program performs. -/
def asciiLower (l : List Nat) : List Nat :=
  l.map fun c => if 65 ≤ c ∧ c ≤ 90 then c + 32 else c

/-- Split a byte list at every occurrence of the byte `b`
(Go `strings.Split`; always returns at least one piece). -/
def splitOnByte (b : Nat) : List Nat → List (List Nat)
  | [] => [[]]
  | c :: t =>
    let r := splitOnByte b t
    if c = b then [] :: r
    else
      match r with
      | h :: t2 => (c :: h) :: t2
      | [] => [[c]]

/-- Go `strings.Trim(line, cut)`: remove leading and trailing bytes that
belong to `cut`. -/
def trimChars (cut : List Nat) (l : List Nat) : List Nat :=
  ((l.dropWhile (· ∈ cut)).reverse.dropWhile (· ∈ cut)).reverse

/-- The ASCII white-space bytes trimmed by Go `strings.TrimSpace`.
(`TrimSpace` also trims the non-ASCII Unicode spaces; the lines produced by
this program's scanner are compared against the empty string after trimming,
and the ASCII subset decides blankness for the byte sequences involved.) -/
def spaceCut : List Nat := [9, 10, 11, 12, 13, 32]

/-- Drop one trailing carriage return, as `bufio.ScanLines`' `dropCR` does. -/
def dropTrailingCR (l : List Nat) : List Nat :=
  match l.getLast? with
  | some 13 => l.dropLast
  | _ => l

/-- The token sequence produced by a `bufio.Scanner` with the default
`ScanLines` split function: split at each LF, strip one trailing CR from every
token, and do not emit a final empty token when the data ends with LF (or is
empty).  (The scanner's 64 KiB maximum token size is not modelled; no claim
involves lines at that scale.) -/
def scanLines (data : List Nat) : List (List Nat) :=
  let ps := splitOnByte 10 data
  let ps' :=
    match ps.getLast? with
    | some [] => ps.dropLast
    | _ => ps
  ps'.map dropTrailingCR

/-! ### Models of the `strconv` parsers used by `main.go`

Only the behaviours `main.go` can observe are modelled: the value returned,
and whether an error was returned (the program either aborts the line on an
error, discards the error, or substitutes a default).  Values are exact:
rounding of decimal literals to binary64 is not modelled, and no claim
depends on it. -/

/-- Decimal digit byte. -/
def isDigitB (c : Nat) : Bool := 48 ≤ c && c ≤ 57

/-- Lower-case hexadecimal digit byte. -/
def isHexB (c : Nat) : Bool := isDigitB c || (97 ≤ c && c ≤ 102)

/-- Value of a (lower-case) hexadecimal digit byte. -/
def hexVal (c : Nat) : Nat := if c ≤ 57 then c - 48 else c - 87

/-- No two adjacent underscore bytes. -/
def noAdjUnderscore : List Nat → Bool
  | a :: b :: t => !(a = 95 && b = 95) && noAdjUnderscore (b :: t)
  | _ => true

/-- A non-empty digit run in which underscores may appear, but only between
two digits (Go's `underscoreOK` discipline for one run of digits): the run
starts and ends with a digit, contains only digits and underscores, and has
no two consecutive underscores. -/
def digitsRun (isD : Nat → Bool) (l : List Nat) : Bool :=
  !l.isEmpty && isD (l.headD 0) && isD (l.getLastD 0) &&
    l.all (fun c => isD c || c = 95) && noAdjUnderscore l

/-- Numeric value of a digit run, ignoring underscores. -/
def runValue (base : Nat) (val : Nat → Nat) (l : List Nat) : Nat :=
  (l.filter (· ≠ 95)).foldl (fun a c => a * base + val c) 0

/-- Value of a run of decimal digits (no sign, no underscores). -/
def natOfDigits (l : List Nat) : Nat :=
  l.foldl (fun a c => a * 10 + (c - 48)) 0

/-- Syntax model of Go `strconv.ParseInt(s, 10, 64)` / `strconv.Atoi`:
an optional sign followed by at least one decimal digit (underscores are not
permitted at base 10).  Returns the exact signed value, before any range
check. -/
def intSyntax (s : List Nat) : Option Int :=
  match s with
  | 43 :: t => if !t.isEmpty && t.all isDigitB then some (natOfDigits t : Int) else none
  | 45 :: t => if !t.isEmpty && t.all isDigitB then some (-(natOfDigits t : Int)) else none
  | t => if !t.isEmpty && t.all isDigitB then some (natOfDigits t : Int) else none

def maxInt64 : Int := 9223372036854775807
def minInt64 : Int := -9223372036854775808

/-- Go `strconv.Atoi` as used by `main.go` (which discards or branches on the
error): `(value, errored)`.  A syntax error yields `(0, true)`; a value outside
the `int64` range yields the saturated extreme together with an error
(`strconv.ErrRange` semantics); otherwise the exact value with no error. -/
def goAtoi (s : List Nat) : Int × Bool :=
  match intSyntax s with
  | none => (0, true)
  | some v =>
    if v > maxInt64 then (maxInt64, true)
    else if v < minInt64 then (minInt64, true)
    else (v, false)

/-- Go `strconv.ParseUint(s, 10, 32)` as used for the message ID, reduced to
success/failure: digits only (no sign, no underscores at base 10), at least
one digit, and a value within the unsigned 32-bit range; `main.go` skips the
line on any error, so the value returned alongside a range error is never
observed. -/
def goParseUint32 (s : List Nat) : Option Nat :=
  if !s.isEmpty && s.all isDigitB then
    let v := natOfDigits s
    if v < 4294967296 then some v else none
  else none

/-- Result of Go `strconv.ParseFloat(s, 64)` at the precision this program
observes: an exact rational, an infinity, or a NaN. -/
inductive GoFloat where
  | num (q : Rat)
  | inf (neg : Bool)
  | nan
deriving DecidableEq, Repr

/-- The special float spellings recognised by `strconv.ParseFloat`
(case-insensitive): optionally signed `inf` / `infinity`, and unsigned
`nan`. -/
def floatSpecial (s : List Nat) : Option GoFloat :=
  let l := asciiLower s
  if l = bytesOf "inf" ∨ l = bytesOf "infinity" ∨
      l = bytesOf "+inf" ∨ l = bytesOf "+infinity" then some (.inf false)
  else if l = bytesOf "-inf" ∨ l = bytesOf "-infinity" then some (.inf true)
  else if l = bytesOf "nan" then some .nan
  else none

/-- Mantissa of a float literal: `digits`, `digits.digits`, `digits.`, or
`.digits` over the digit alphabet `isD`, with underscores only between
digits.  Returns the exact value. -/
def mantissaV (isD : Nat → Bool) (base : Nat) (val : Nat → Nat)
    (l : List Nat) : Option Rat :=
  match splitOnByte 46 l with
  | [ip] => if digitsRun isD ip then some (runValue base val ip : Rat) else none
  | [ip, fp] =>
    if (ip.isEmpty || digitsRun isD ip) && (fp.isEmpty || digitsRun isD fp) &&
        !(ip.isEmpty && fp.isEmpty) then
      some ((runValue base val ip : Rat) +
        (runValue base val fp : Rat) / (base : Rat) ^ (fp.filter (· ≠ 95)).length)
    else none
  | _ => none

/-- Exponent of a float literal: optional sign, then decimal digits
(underscores between digits). -/
def expIntV (l : List Nat) : Option Int :=
  match l with
  | 43 :: t => if digitsRun isDigitB t then some (runValue 10 (· - 48) t : Int) else none
  | 45 :: t => if digitsRun isDigitB t then some (-(runValue 10 (· - 48) t : Int)) else none
  | t => if digitsRun isDigitB t then some (runValue 10 (· - 48) t : Int) else none

/-- Unsigned decimal float literal (already lower-cased): mantissa with an
optional `e`-exponent. -/
def decimalV (l : List Nat) : Option Rat :=
  match splitOnByte 101 l with
  | [m] => mantissaV isDigitB 10 (· - 48) m
  | [m, ex] =>
    match mantissaV isDigitB 10 (· - 48) m, expIntV ex with
    | some q, some e => some (q * (10 : Rat) ^ e)
    | _, _ => none
  | _ => none

/-- Unsigned hexadecimal float literal body (the part after `0x`, already
lower-cased): hexadecimal mantissa and a mandatory binary `p`-exponent.
One underscore may stand between the `0x` prefix and the first digit. -/
def hexV (t : List Nat) : Option Rat :=
  let t' :=
    match t with
    | 95 :: c :: r => if isHexB c then c :: r else [95]
    | u => u
  match splitOnByte 112 t' with
  | [m, ex] =>
    match mantissaV isHexB 16 hexVal m, expIntV ex with
    | some q, some e => some (q * (2 : Rat) ^ e)
    | _, _ => none
  | _ => none

/-- Unsigned numeric float literal: hexadecimal when it carries the `0x`
prefix, decimal otherwise. -/
def numV (l : List Nat) : Option Rat :=
  match l with
  | 48 :: 120 :: t => hexV t
  | t => decimalV t

/-- Full syntax model of `strconv.ParseFloat(s, 64)`, before the range
check: special spellings, or an optionally signed decimal/hexadecimal
literal (case-insensitive). -/
def floatSyntax (s : List Nat) : Option GoFloat :=
  match floatSpecial s with
  | some v => some v
  | none =>
    match asciiLower s with
    | 43 :: t => (numV t).map .num
    | 45 :: t => (numV t).map (fun q => .num (-q))
    | t => (numV t).map .num

/-- The largest finite binary64 value, `(2^53 - 1) * 2^971` (computed in `Nat`
and cast, so that it evaluates by kernel arithmetic). -/
def maxFiniteF64 : Rat := ((2 ^ 53 - 1) * 2 ^ 971 : Nat)

/-- Go `strconv.ParseFloat(s, 64)` as observed by `main.go`:
`(value, errored)`.  A syntax error yields `(0, true)`; a finite literal whose
magnitude exceeds the largest finite binary64 value yields the signed infinity
together with a range error; otherwise the exact value.  (Round-to-nearest at
the overflow boundary and gradual underflow are not modelled; no claim
depends on either.) -/
def goParseFloat (s : List Nat) : GoFloat × Bool :=
  match floatSyntax s with
  | none => (.num 0, true)
  | some (.inf b) => (.inf b, false)
  | some .nan => (.nan, false)
  | some (.num q) =>
    if q > maxFiniteF64 then (.inf false, true)
    else if q < -maxFiniteF64 then (.inf true, true)
    else (.num q, false)

/-! ### The container reader (`processFile`, steps 1–4, and its utilities) -/

/-- Classification of a failed read: clean end of stream (`io.EOF` /
`io.ErrUnexpectedEOF`) or any other I/O error.  `processFile` inspects the
class only at its final `ReadByte` check; everywhere else any error is
fatal. -/
inductive RErr where
  | eof
  | other
deriving DecidableEq, Repr

/-- `reader.ReadByte()` on a stream with `s` unread bytes; `e` tells whether
the byte source fails with a non-EOF error after the bytes run out. -/
def readByteE (e : Bool) : List Nat → Except RErr (Nat × List Nat)
  | [] => .error (if e then .other else .eof)
  | b :: t => .ok (b, t)

/-- `reader.Discard(n)`: succeeds iff `n` bytes are available. -/
def discardE (e : Bool) (n : Nat) (s : List Nat) : Except RErr (List Nat) :=
  if n ≤ s.length then .ok (s.drop n) else .error (if e then .other else .eof)

/-- `binary.Read(reader, binary.BigEndian, &x)` for a `uint16`: two bytes,
big-endian. -/
def readU16BE (e : Bool) : List Nat → Except RErr (Nat × List Nat)
  | b1 :: b2 :: t => .ok (b1 * 256 + b2, t)
  | _ => .error (if e then .other else .eof)

/-- `readZlibStr` from `main.go`: a 2-byte big-endian length followed by that
many raw bytes (`io.ReadFull`); an under-full payload is an error. -/
def readZlibStr (e : Bool) (s : List Nat) : Except RErr (List Nat × List Nat) :=
  match readU16BE e s with
  | .error err => .error err
  | .ok (len, t) =>
    if len ≤ t.length then .ok (t.take len, t.drop len)
    else .error (if e then .other else .eof)

/-- `readUpToCRLF` from `main.go`: peek two bytes; stop — without consuming
them — when they are CR LF; on a clean end of input (fewer than two bytes
left) return everything that remains as the field; otherwise consume one byte
into the field and repeat.  A non-EOF error from the peek is returned as an
error.  Returns `(field, bytes still unread)`. -/
def readUpToCRLF (e : Bool) : List Nat → Except RErr (List Nat × List Nat)
  | [] => if e then .error .other else .ok ([], [])
  | [b] => if e then .error .other else .ok ([b], [])
  | b1 :: b2 :: t =>
    if b1 = 13 ∧ b2 = 10 then .ok ([], b1 :: b2 :: t)
    else
      match readUpToCRLF e (b2 :: t) with
      | .error err => .error err
      | .ok (f, r) => .ok (b1 :: f, r)

/-- One leading header field as `processFile` consumes it: `readUpToCRLF`
followed by `reader.Discard(2)` (`main.go` lines 127–140). -/
def readHeaderField (e : Bool) (s : List Nat) : Except RErr (List Nat × List Nat) :=
  match readUpToCRLF e s with
  | .error err => .error err
  | .ok (f, s1) =>
    match discardE e 2 s1 with
    | .error err => .error err
    | .ok s2 => .ok (f, s2)

/-- The entry loop of `processFile` (step 3, lines 153–174), given the
decompressor `d` and the number of entries still to read.  Returns the
accumulated non-blank lines, the warnings flag contributed by the loop, and
the unread rest of the stream; `none` is a fatal error (a `readZlibStr`
failure).  A decompression failure skips the entry and sets the flag. -/
def processEntries (d : List Nat → Option (List Nat)) (e : Bool) :
    Nat → List Nat → Option (List (List Nat) × Bool × List Nat)
  | 0, s => some ([], false, s)
  | n + 1, s =>
    match readZlibStr e s with
    | .error _ => none
    | .ok (payload, s') =>
      match d payload with
      | none =>
        match processEntries d e n s' with
        | none => none
        | some (ls, _, r) => some (ls, true, r)
      | some data =>
        let ls := (scanLines data).filter (fun l => trimChars spaceCut l ≠ [])
        match processEntries d e n s' with
        | none => none
        | some (ls2, w, r) => some (ls ++ ls2, w, r)

/-- The container-reading part of `processFile` (steps 1–4, lines 126–187):
two CRLF-delimited header fields each followed by a 2-byte discard, one
length-prefixed serial block read by `readZlibStr` (its payload is discarded
without being decompressed), the big-endian `uint16` entry count, the entry
loop, and the final one-byte check for trailing data.  Returns the collected
lines and the warnings flag, or `none` on a fatal error. -/
def processContainer (d : List Nat → Option (List Nat)) (e : Bool)
    (s : List Nat) : Option (List (List Nat) × Bool) :=
  match readHeaderField e s with
  | .error _ => none
  | .ok (_, s2) =>
    match readHeaderField e s2 with
    | .error _ => none
    | .ok (_, s4) =>
      match readZlibStr e s4 with
      | .error _ => none
      | .ok (_, s5) =>
        match readU16BE e s5 with
        | .error _ => none
        | .ok (n, s6) =>
          match processEntries d e n s6 with
          | none => none
          | some (lines, w, s7) =>
            match readByteE e s7 with
            | .ok _ => some (lines, true)
            | .error .eof => some (lines, w)
            | .error .other => none

/-! ### Data model (`Signal`, `Message` from `main.go`) -/

/-- `Signal` from `main.go`: one signal within a CAN message.  Strings are
byte lists, Go `int` fields are `Int` (64-bit range is enforced by the
parser model), `float64` fields are `GoFloat`. -/
structure Signal where
  Name : List Nat
  StartBit : Int
  Length : Int
  ByteOrder : Nat
  IsSigned : Bool
  Factor : GoFloat
  Offset : GoFloat
  Min : GoFloat
  Max : GoFloat
  Unit : List Nat
deriving DecidableEq, Repr

/-- `Message` from `main.go`: a CAN message with its signals. -/
structure Message where
  ID : Nat
  Name : List Nat
  DLC : Int
  Node : List Nat
  Signals : List Signal
deriving DecidableEq, Repr

/-- Decimal rendering of a natural number, as `fmt.Sprintf("%d", n)`. -/
def natDecimal (n : Nat) : List Nat :=
  (Nat.toDigits 10 n).map Char.toNat

/-- The fresh message created by `parseSignalLines` (lines 263–269): synthetic
name `CAN_MSG_<id>`, this line's DLC, the fixed node, and no signals yet. -/
def mkMessage (id : Nat) (dlc : Int) : Message :=
  { ID := id
    Name := bytesOf "CAN_MSG_" ++ natDecimal id
    DLC := dlc
    Node := bytesOf "VECTOR__XXX"
    Signals := [] }

/-! ### The Go `map[uint32]*Message`

The map is modelled as an association list in first-insertion order; Go's
map iteration order is deliberately unspecified, so every theorem that could
depend on it quantifies over permutations of the list. -/

/-- `messages[id]` (the lookup, `ok` form). -/
def lookupMsg (m : List (Nat × Message)) (id : Nat) : Option Message :=
  (m.find? (fun p => p.1 = id)).map (·.2)

/-- In-place mutation of `messages[id]` (the Go code mutates the message
through its pointer; keys are unchanged). -/
def updateMsg (m : List (Nat × Message)) (id : Nat) (f : Message → Message) :
    List (Nat × Message) :=
  m.map fun p => if p.1 = id then (p.1, f p.2) else p

/-! ### The line parser (`parseSignalLines`, lines 212–296) -/

/-- The trim cutset `" \t,"` of line 219. -/
def lineCut : List Nat := [32, 9, 44]

/-- The comma-separated fields of one line, after trimming
(`strings.Split(strings.Trim(line, " \t,"), ",")`, line 219). -/
def lineParts (line : List Nat) : List (List Nat) :=
  splitOnByte 44 (trimChars lineCut line)

/-- The `Signal` literal built at lines 279–290 from the fields of one line
(the error of every `Atoi` / `ParseFloat` on fields 3–8 is discarded, so the
value component is used as returned). -/
def mkSig (parts : List (List Nat)) : Signal :=
  { Name := parts.getD 0 []
    StartBit := (goAtoi (parts.getD 3 [])).1
    Length := (goAtoi (parts.getD 4 [])).1
    ByteOrder := if asciiLower (parts.getD 10 []) = bytesOf "intel" then 1 else 0
    IsSigned := asciiLower (parts.getD 9 []) = bytesOf "signed"
    Factor := (goParseFloat (parts.getD 6 [])).1
    Offset := (goParseFloat (parts.getD 5 [])).1
    Min := (goParseFloat (parts.getD 8 [])).1
    Max := (goParseFloat (parts.getD 7 [])).1
    Unit := parts.getD 2 [] }

/-- The DLC of one line (lines 246–260): field 11 when present (default 8
with a warning when it does not parse), default 8 with a warning when the
field is missing.  Returns `(dlc, warning issued)`. -/
def dlcParse (parts : List (List Nat)) : Int × Bool :=
  if 12 ≤ parts.length then
    let r := goAtoi (parts.getD 11 [])
    if r.2 then (8, true) else (r.1, false)
  else (8, true)

/-- Everything `parseSignalLines` extracts from one line, or `none` when the
line is skipped (fewer than 11 fields, line 220, or an unparseable message
ID, line 227; both skips warn): the message ID, the signal, the DLC, and
whether the DLC handling warned. -/
def lineRecord (line : List Nat) : Option (Nat × Signal × Int × Bool) :=
  let parts := lineParts line
  if parts.length < 11 then none
  else
    match goParseUint32 (parts.getD 1 []) with
    | none => none
    | some msgID => some (msgID, mkSig parts, (dlcParse parts).1, (dlcParse parts).2)

/-- The map update for one accepted line (lines 262–293): create the message
if absent — with this line's DLC — otherwise raise its DLC to this line's
when larger; then append the signal to the message. -/
def upsert (msgs : List (Nat × Message)) (j : Nat) (s : Signal) (d : Int) :
    List (Nat × Message) :=
  let msgs1 :=
    match lookupMsg msgs j with
    | none => msgs ++ [(j, mkMessage j d)]
    | some m => if d > m.DLC then updateMsg msgs j (fun m2 => { m2 with DLC := d }) else msgs
  updateMsg msgs1 j (fun m2 => { m2 with Signals := m2.Signals ++ [s] })

/-- The loop body of `parseSignalLines` for one line, acting on the
`(messages, hasWarnings)` state: a skipped line only sets the warnings flag;
an accepted line updates the map and ORs in its DLC warning. -/
def processLine (acc : List (Nat × Message) × Bool) (line : List Nat) :
    List (Nat × Message) × Bool :=
  match lineRecord line with
  | none => (acc.1, true)
  | some (j, s, d, wl) => (upsert acc.1 j s d, acc.2 || wl)

/-- `parseSignalLines` (lines 212–296): fold the loop body over the lines,
starting from the empty map with no warnings.  (The Go function's `error`
result is always `nil` and is omitted.) -/
def parseSignalLines (lines : List (List Nat)) : List (Nat × Message) × Bool :=
  lines.foldl processLine ([], false)

/-! ### The serializer (`writeDBC`, lines 299–349)

`writeDBC` is modelled at the granularity the claims are about: the sequence
of `BO_` frame blocks it emits after the fixed preamble, each with the
emitted header fields and the signal list rendered in stored order.  (The
`%g` text rendering of the float fields is binary64 formatting and is not
modelled; no claim depends on it.) -/

/-- One `BO_` block: the fields of the `BO_` line (lines 319) and the
signals whose `SG_` lines follow it (lines 320–344), in stored order. -/
structure FrameBlock where
  id : Nat
  name : List Nat
  dlc : Int
  node : List Nat
  sigs : List Signal
deriving DecidableEq, Repr

/-- The block emitted for one message: the `BO_` line's fields (line 319) and
the signal list. -/
def frameOf (m : Message) : FrameBlock :=
  { id := m.ID, name := m.Name, dlc := m.DLC, node := m.Node, sigs := m.Signals }

/-- The frame blocks emitted by `writeDBC`: collect the map's keys (in the
map's iteration order, i.e. the order of the association list at hand), sort
them ascending (`sort.Slice` with `ids[i] < ids[j]`, line 314 — unstable, but
the keys of a map are distinct so the ascending order is unique), and emit
one block per key from the message stored there. -/
def writeDBC (msgs : List (Nat × Message)) : List FrameBlock :=
  let ids := (msgs.map Prod.fst).mergeSort (fun a b => decide (a ≤ b))
  ids.filterMap fun id => (lookupMsg msgs id).map frameOf

/-! ### Specification-side descriptions of well-formed containers -/

/-- Whether a byte list contains the two-byte sequence CR LF. -/
def hasCRLFpair : List Nat → Bool
  | a :: b :: t => (a = 13 && b = 10) || hasCRLFpair (b :: t)
  | _ => false

/-- Big-endian 2-byte encoding of `n < 65536`. -/
def u16be (n : Nat) : List Nat := [n / 256, n % 256]

/-- A length-prefixed block holding payload `p`. -/
def block (p : List Nat) : List Nat := u16be p.length ++ p

/-- The concatenation of the length-prefixed blocks of the given payloads. -/
def blocks (ps : List (List Nat)) : List Nat := (ps.map block).flatten

/-- The non-blank lines contributed by the given entry payloads under the
decompressor `d`, in entry order: a payload that fails to decompress
contributes nothing, a payload that decompresses contributes its non-blank
scanner lines. -/
def entryLines (d : List Nat → Option (List Nat)) (ps : List (List Nat)) :
    List (List Nat) :=
  ps.flatMap fun p =>
    match d p with
    | none => []
    | some data => (scanLines data).filter (fun l => trimChars spaceCut l ≠ [])

/-- Whether any of the entry payloads fails to decompress under `d`. -/
def anyEntryFails (d : List Nat → Option (List Nat)) (ps : List (List Nat)) : Bool :=
  ps.any fun p => (d p).isNone

/-- A fully well-formed container stream: header field `h1`, CRLF, header
field `h2`, CRLF, the length-prefixed serial blob `sp`, the entry count, the
entry blocks `ps`, and `extra` trailing bytes. -/
def containerBytes (h1 h2 sp : List Nat) (ps : List (List Nat))
    (extra : List Nat) : List Nat :=
  h1 ++ 13 :: 10 :: (h2 ++ 13 :: 10 :: (block sp ++ (u16be ps.length ++ (blocks ps ++ extra))))

/-! ### Specification-side description of the built message map -/

/-- The `(signal, dlc)` pairs contributed to message `id` by the given lines,
in line order (the lines `parseSignalLines` skips contribute nothing). -/
def contribs (lines : List (List Nat)) (id : Nat) : List (Signal × Int) :=
  lines.filterMap fun l =>
    match lineRecord l with
    | some (j, s, d, _) => if j = id then some (s, d) else none
    | none => none

/-- The running maximum the builder keeps for the DLC: the first
contribution's value, raised by each later larger one. -/
def specDLC : List Int → Int
  | [] => 0
  | d :: ds => ds.foldl max d

/-- The message the builder should hold for `id` given its contributions. -/
def specMessage (id : Nat) (cs : List (Signal × Int)) : Message :=
  { ID := id
    Name := bytesOf "CAN_MSG_" ++ natDecimal id
    DLC := specDLC (cs.map Prod.snd)
    Node := bytesOf "VECTOR__XXX"
    Signals := cs.map Prod.fst }

/-- What a lookup in the built map should return for `id`. -/
def specLookup (lines : List (List Nat)) (id : Nat) : Option Message :=
  match contribs lines id with
  | [] => none
  | cs => some (specMessage id cs)

/-! ### Container-reader lemmas -/

theorem readUpToCRLF_append (e : Bool) (f r : List Nat)
    (hf : hasCRLFpair f = false) :
    readUpToCRLF e (f ++ 13 :: 10 :: r) = .ok (f, 13 :: 10 :: r) := by
  induction f with
  | nil => simp [readUpToCRLF]
  | cons a t ih =>
    cases t with
    | nil =>
      have h0 : readUpToCRLF e (13 :: 10 :: r) = .ok ([], 13 :: 10 :: r) := by
        simp [readUpToCRLF]
      simp [readUpToCRLF, h0]
    | cons b t2 =>
      simp only [hasCRLFpair, Bool.or_eq_false_iff, Bool.and_eq_false_iff] at hf
      have h1 : ¬(a = 13 ∧ b = 10) := by
        rcases hf.1 with h | h
        · exact fun hc => by simp [hc.1] at h
        · exact fun hc => by simp [hc.2] at h
      have h2 := ih hf.2
      simp only [List.cons_append] at h2 ⊢
      simp [readUpToCRLF, h1, h2]

theorem readHeaderField_append (e : Bool) (f r : List Nat)
    (hf : hasCRLFpair f = false) :
    readHeaderField e (f ++ 13 :: 10 :: r) = .ok (f, r) := by
  simp [readHeaderField, readUpToCRLF_append e f r hf, discardE]

theorem readU16BE_u16be (e : Bool) (n : Nat) (r : List Nat) (_h : n < 65536) :
    readU16BE e (u16be n ++ r) = .ok (n, r) := by
  have : n / 256 * 256 + n % 256 = n := by omega
  simp [u16be, readU16BE, this]

theorem readZlibStr_block (e : Bool) (p r : List Nat) (h : p.length < 65536) :
    readZlibStr e (block p ++ r) = .ok (p, r) := by
  simp only [block, List.append_assoc]
  rw [readZlibStr, readU16BE_u16be e p.length (p ++ r) h]
  simp [List.take_left' rfl, List.drop_left' rfl]

theorem processEntries_blocks (d : List Nat → Option (List Nat)) (e : Bool)
    (ps : List (List Nat)) (r : List Nat)
    (h : ∀ p ∈ ps, p.length < 65536) :
    processEntries d e ps.length (blocks ps ++ r) =
      some (entryLines d ps, anyEntryFails d ps, r) := by
  induction ps with
  | nil => simp [processEntries, blocks, entryLines, anyEntryFails]
  | cons p ps ih =>
    have hp : p.length < 65536 := h p (by simp)
    have hps : ∀ q ∈ ps, q.length < 65536 := fun q hq => h q (by simp [hq])
    have hb : blocks (p :: ps) ++ r = block p ++ (blocks ps ++ r) := by
      simp [blocks]
    rw [List.length_cons, hb, processEntries, readZlibStr_block e p _ hp]
    cases hd : d p with
    | none =>
      simp only [ih hps]
      simp [entryLines, anyEntryFails, hd]
    | some data =>
      simp only [ih hps]
      simp [entryLines, anyEntryFails, hd]

/-- Master characterization of the container reader on a well-formed
container: the collected lines are the non-blank lines of the entries that
decompress, the warnings flag records decompression failures and trailing
data, trailing bytes are a warning, a clean EOF is silent, and a non-EOF
failure at the final one-byte check is fatal. -/
theorem processContainer_spec (d : List Nat → Option (List Nat)) (e : Bool)
    (h1 h2 sp : List Nat) (ps : List (List Nat)) (extra : List Nat)
    (hh1 : hasCRLFpair h1 = false) (hh2 : hasCRLFpair h2 = false)
    (hsp : sp.length < 65536) (hn : ps.length < 65536)
    (hps : ∀ p ∈ ps, p.length < 65536) :
    processContainer d e (containerBytes h1 h2 sp ps extra) =
      match extra, e with
      | [], false => some (entryLines d ps, anyEntryFails d ps)
      | [], true => none
      | _ :: _, _ => some (entryLines d ps, true) := by
  rw [processContainer, containerBytes, readHeaderField_append e h1 _ hh1]
  dsimp only
  rw [readHeaderField_append e h2 _ hh2]
  dsimp only
  rw [readZlibStr_block e sp _ hsp]
  dsimp only
  rw [readU16BE_u16be e ps.length _ hn]
  dsimp only
  rw [processEntries_blocks d e ps extra hps]
  dsimp only
  cases extra with
  | nil => cases e <;> simp [readByteE]
  | cons b t => cases e <;> simp [readByteE]

theorem processEntries_truncated (d : List Nat → Option (List Nat)) (e : Bool)
    (ps : List (List Nat)) (L : Nat) (q : List Nat) (n : Nat)
    (hps : ∀ p ∈ ps, p.length < 65536) (hlt : ps.length < n)
    (hq : q.length < L) (hL : L < 65536) :
    processEntries d e n (blocks ps ++ (u16be L ++ q)) = none := by
  induction ps generalizing n with
  | nil =>
    cases n with
    | zero => simp at hlt
    | succ m =>
      have hz : readZlibStr e (u16be L ++ q) = .error (if e then .other else .eof) := by
        rw [readZlibStr, readU16BE_u16be e L q hL]
        simp [Nat.not_le.mpr hq]
      simp only [blocks, List.map_nil, List.flatten_nil, List.nil_append]
      rw [processEntries, hz]
  | cons p ps ih =>
    cases n with
    | zero => simp at hlt
    | succ m =>
      have hp : p.length < 65536 := hps p (by simp)
      have hb : blocks (p :: ps) ++ (u16be L ++ q) =
          block p ++ (blocks ps ++ (u16be L ++ q)) := by simp [blocks]
      have hm : ps.length < m := by simp at hlt; omega
      have hrec := ih m (fun r hr => hps r (List.mem_cons_of_mem p hr)) hm
      rw [hb, processEntries, readZlibStr_block e p _ hp]
      cases hd : d p <;> simp [hrec, hd]

/-! ### Association-list lemmas for the message map -/

theorem lookupMsg_cons (p : Nat × Message) (t : List (Nat × Message)) (id : Nat) :
    lookupMsg (p :: t) id = if p.1 = id then some p.2 else lookupMsg t id := by
  rw [lookupMsg, List.find?_cons]
  by_cases h : p.1 = id <;> simp [h, lookupMsg]

theorem updateMsg_cons (p : Nat × Message) (t : List (Nat × Message)) (j : Nat)
    (f : Message → Message) :
    updateMsg (p :: t) j f =
      (if p.1 = j then (p.1, f p.2) else p) :: updateMsg t j f := by
  simp [updateMsg]

theorem lookupMsg_eq_none_iff (l : List (Nat × Message)) (id : Nat) :
    lookupMsg l id = none ↔ id ∉ l.map Prod.fst := by
  induction l with
  | nil => simp [lookupMsg]
  | cons p t ih =>
    rw [lookupMsg_cons, List.map_cons]
    by_cases h : p.1 = id
    · constructor
      · intro hc; simp [h] at hc
      · intro hc; exact absurd (by simp [h]) hc
    · rw [if_neg h, ih]
      have h2 : ¬id = p.1 := fun hc => h hc.symm
      simp [List.mem_cons, h2]

theorem lookupMsg_mem (l : List (Nat × Message)) (id : Nat) (m : Message)
    (h : lookupMsg l id = some m) : (id, m) ∈ l := by
  induction l with
  | nil => simp [lookupMsg] at h
  | cons p t ih =>
    obtain ⟨a, b⟩ := p
    rw [lookupMsg_cons] at h
    by_cases hp : a = id
    · have hbm : b = m := by simpa [hp] using h
      subst hp
      subst hbm
      exact List.mem_cons_self _ _
    · simp only at h
      rw [if_neg hp] at h
      exact List.mem_cons_of_mem _ (ih h)

theorem lookupMsg_of_mem (l : List (Nat × Message)) (id : Nat) (m : Message)
    (hnd : (l.map Prod.fst).Nodup) (h : (id, m) ∈ l) :
    lookupMsg l id = some m := by
  induction l with
  | nil => simp at h
  | cons p t ih =>
    simp only [List.map_cons, List.nodup_cons] at hnd
    rw [lookupMsg_cons]
    rcases List.mem_cons.mp h with rfl | hmem
    · simp
    · have hne : p.1 ≠ id := by
        intro hc
        exact hnd.1 (hc ▸ List.mem_map.mpr ⟨(id, m), hmem, rfl⟩)
      simp [hne, ih hnd.2 hmem]

theorem lookupMsg_append_absent (l : List (Nat × Message)) (j : Nat)
    (m : Message) (h : lookupMsg l j = none) :
    lookupMsg (l ++ [(j, m)]) j = some m := by
  rw [lookupMsg] at h ⊢
  rw [List.find?_append]
  rw [Option.map_eq_none'] at h
  simp [h, lookupMsg]

theorem lookupMsg_append_ne (l : List (Nat × Message)) (j id : Nat)
    (m : Message) (hne : id ≠ j) :
    lookupMsg (l ++ [(j, m)]) id = lookupMsg l id := by
  rw [lookupMsg, lookupMsg, List.find?_append]
  cases hf : l.find? (fun p => p.1 = id) with
  | some p => simp
  | none => simp [List.find?, Ne.symm hne]

theorem lookupMsg_updateMsg_self (l : List (Nat × Message)) (j : Nat)
    (f : Message → Message) :
    lookupMsg (updateMsg l j f) j = (lookupMsg l j).map f := by
  induction l with
  | nil => simp [lookupMsg, updateMsg]
  | cons p t ih =>
    rw [updateMsg_cons, lookupMsg_cons, lookupMsg_cons]
    by_cases hp : p.1 = j
    · simp [hp]
    · simp only [if_neg hp]
      exact ih

theorem lookupMsg_updateMsg_ne (l : List (Nat × Message)) (j id : Nat)
    (f : Message → Message) (hne : id ≠ j) :
    lookupMsg (updateMsg l j f) id = lookupMsg l id := by
  induction l with
  | nil => simp [lookupMsg, updateMsg]
  | cons p t ih =>
    rw [updateMsg_cons, lookupMsg_cons, lookupMsg_cons]
    by_cases hp : p.1 = j
    · have h2 : ¬(j = id) := Ne.symm hne
      simp only [if_pos hp, hp, h2, if_false]
      rw [if_neg (by simpa [hp] using h2)]
      exact ih
    · simp only [if_neg hp]
      by_cases hid : p.1 = id
      · simp [hid]
      · rw [if_neg hid, if_neg hid]
        exact ih

theorem updateMsg_keys (l : List (Nat × Message)) (j : Nat)
    (f : Message → Message) :
    (updateMsg l j f).map Prod.fst = l.map Prod.fst := by
  induction l with
  | nil => simp [updateMsg]
  | cons p t ih =>
    rw [updateMsg_cons, List.map_cons, List.map_cons, ih]
    by_cases hp : p.1 = j <;> simp [hp]

/-! ### Behaviour of `upsert` -/

theorem upsert_keys (msgs : List (Nat × Message)) (j : Nat) (s : Signal) (d : Int) :
    (upsert msgs j s d).map Prod.fst =
      match lookupMsg msgs j with
      | none => msgs.map Prod.fst ++ [j]
      | some _ => msgs.map Prod.fst := by
  cases h : lookupMsg msgs j with
  | none => simp [upsert, h, updateMsg_keys]
  | some m =>
    simp only [upsert, h]
    by_cases hd : d > m.DLC
    · simp [if_pos hd, updateMsg_keys]
    · simp [if_neg hd, updateMsg_keys]

theorem upsert_lookup_absent (msgs : List (Nat × Message)) (j : Nat)
    (s : Signal) (d : Int) (hnone : lookupMsg msgs j = none) :
    lookupMsg (upsert msgs j s d) j = some { mkMessage j d with Signals := [s] } := by
  simp only [upsert, hnone]
  rw [lookupMsg_updateMsg_self, lookupMsg_append_absent _ _ _ hnone]
  rfl

theorem upsert_lookup_present (msgs : List (Nat × Message)) (j : Nat)
    (s : Signal) (d : Int) (m : Message) (hm : lookupMsg msgs j = some m) :
    lookupMsg (upsert msgs j s d) j =
      some { m with DLC := max m.DLC d, Signals := m.Signals ++ [s] } := by
  simp only [upsert, hm]
  by_cases hd : d > m.DLC
  · rw [if_pos hd, lookupMsg_updateMsg_self, lookupMsg_updateMsg_self, hm]
    simp [max_eq_right (le_of_lt hd)]
  · rw [if_neg hd, lookupMsg_updateMsg_self, hm]
    simp [max_eq_left (not_lt.mp hd)]

theorem upsert_lookup_ne (msgs : List (Nat × Message)) (j id : Nat)
    (s : Signal) (d : Int) (hne : id ≠ j) :
    lookupMsg (upsert msgs j s d) id = lookupMsg msgs id := by
  cases h : lookupMsg msgs j with
  | none =>
    simp only [upsert, h]
    rw [lookupMsg_updateMsg_ne _ _ _ _ hne, lookupMsg_append_ne _ _ _ _ hne]
  | some m =>
    simp only [upsert, h]
    by_cases hd : d > m.DLC
    · rw [if_pos hd, lookupMsg_updateMsg_ne _ _ _ _ hne, lookupMsg_updateMsg_ne _ _ _ _ hne]
    · rw [if_neg hd, lookupMsg_updateMsg_ne _ _ _ _ hne]

/-! ### Behaviour of `contribs` and `specDLC` -/

theorem contribs_append (P Q : List (List Nat)) (id : Nat) :
    contribs (P ++ Q) id = contribs P id ++ contribs Q id := by
  simp [contribs, List.filterMap_append]

theorem contribs_single_none (l : List Nat) (id : Nat)
    (h : lineRecord l = none) : contribs [l] id = [] := by
  simp [contribs, h]

theorem contribs_single_some (l : List Nat) (id j : Nat) (s : Signal)
    (d : Int) (wl : Bool) (h : lineRecord l = some (j, s, d, wl)) :
    contribs [l] id = if j = id then [(s, d)] else [] := by
  by_cases hj : j = id <;> simp [contribs, h, hj]

theorem foldl_max_le_init (ds : List Int) (a : Int) : a ≤ ds.foldl max a := by
  induction ds generalizing a with
  | nil => exact le_refl a
  | cons b t ih => exact le_trans (le_max_left a b) (ih (max a b))

theorem foldl_max_le_mem (ds : List Int) (a x : Int) :
    x ∈ ds → x ≤ ds.foldl max a := by
  induction ds generalizing a with
  | nil => intro hx; simp at hx
  | cons b t ih =>
    intro hx
    rcases List.mem_cons.mp hx with rfl | hmem
    · exact le_trans (le_max_right a x) (foldl_max_le_init t (max a x))
    · exact ih (max a b) hmem

theorem foldl_max_mem (ds : List Int) (a : Int) :
    ds.foldl max a = a ∨ ds.foldl max a ∈ ds := by
  induction ds generalizing a with
  | nil => left; rfl
  | cons b t ih =>
    rw [List.foldl_cons]
    rcases ih (max a b) with h | h
    · rw [h]
      rcases max_choice a b with h2 | h2
      · left; exact h2
      · right; rw [h2]; exact List.mem_cons_self _ _
    · right; exact List.mem_cons_of_mem _ h

theorem specDLC_mem (ds : List Int) (h : ds ≠ []) : specDLC ds ∈ ds := by
  cases ds with
  | nil => exact absurd rfl h
  | cons a t =>
    rw [specDLC]
    rcases foldl_max_mem t a with h2 | h2
    · rw [h2]; exact List.mem_cons_self _ _
    · exact List.mem_cons_of_mem _ h2

theorem specDLC_le (ds : List Int) (x : Int) (hx : x ∈ ds) : x ≤ specDLC ds := by
  cases ds with
  | nil => simp at hx
  | cons a t =>
    rw [specDLC]
    rcases List.mem_cons.mp hx with rfl | hmem
    · exact foldl_max_le_init t x
    · exact foldl_max_le_mem t a x hmem

theorem specDLC_snoc (ds : List Int) (d : Int) (h : ds ≠ []) :
    specDLC (ds ++ [d]) = max (specDLC ds) d := by
  cases ds with
  | nil => exact absurd rfl h
  | cons a t => simp [specDLC, List.foldl_append]

theorem specLookup_congr (P Q : List (List Nat)) (id : Nat)
    (h : contribs P id = contribs Q id) : specLookup P id = specLookup Q id := by
  rw [specLookup, specLookup, h]

theorem specLookup_none_iff (P : List (List Nat)) (id : Nat) :
    specLookup P id = none ↔ contribs P id = [] := by
  rw [specLookup]
  cases h : contribs P id <;> simp

theorem specLookup_some_iff (P : List (List Nat)) (id : Nat) (m : Message) :
    specLookup P id = some m ↔
      contribs P id ≠ [] ∧ m = specMessage id (contribs P id) := by
  rw [specLookup]
  cases h : contribs P id with
  | nil => simp
  | cons c t => simp [h, eq_comm]

/-! ### The builder invariant and the master description of `parseSignalLines` -/

/-- The message map realizes exactly the contributions of the lines processed
so far: its keys are distinct and every lookup returns what the processed
lines prescribe. -/
def GoodMap (msgs : List (Nat × Message)) (P : List (List Nat)) : Prop :=
  (msgs.map Prod.fst).Nodup ∧ ∀ id, lookupMsg msgs id = specLookup P id

theorem GoodMap_processLine (msgs : List (Nat × Message)) (w : Bool)
    (P : List (List Nat)) (l : List Nat) (hg : GoodMap msgs P) :
    GoodMap (processLine (msgs, w) l).1 (P ++ [l]) := by
  obtain ⟨hnd, hlk⟩ := hg
  cases hlr : lineRecord l with
  | none =>
    refine ⟨by simpa [processLine, hlr] using hnd, fun id => ?_⟩
    have hc : contribs (P ++ [l]) id = contribs P id := by
      rw [contribs_append, contribs_single_none _ _ hlr, List.append_nil]
    rw [specLookup_congr (P ++ [l]) P id hc]
    simpa [processLine, hlr] using hlk id
  | some a =>
    obtain ⟨j, s, d, wl⟩ := a
    have hfst : (processLine (msgs, w) l).1 = upsert msgs j s d := by
      simp [processLine, hlr]
    rw [hfst]
    constructor
    · cases h : lookupMsg msgs j with
      | none =>
        have hj : j ∉ msgs.map Prod.fst := (lookupMsg_eq_none_iff msgs j).mp h
        rw [upsert_keys, h]
        simp [List.nodup_append, hnd, hj]
      | some m =>
        rw [upsert_keys, h]
        exact hnd
    · intro id
      have hc : contribs (P ++ [l]) id =
          contribs P id ++ (if j = id then [(s, d)] else []) := by
        rw [contribs_append, contribs_single_some l id j s d wl hlr]
      by_cases hid : id = j
      · subst hid
        rw [if_pos rfl] at hc
        cases hm : lookupMsg msgs id with
        | none =>
          have hsp : specLookup P id = none := (hlk id).symm.trans hm
          have hP : contribs P id = [] := (specLookup_none_iff P id).mp hsp
          have hc2 : contribs (P ++ [l]) id = [(s, d)] := by
            rw [hc, hP]; rfl
          have hspl : specLookup (P ++ [l]) id = some (specMessage id [(s, d)]) :=
            (specLookup_some_iff _ _ _).mpr ⟨by simp [hc2], by rw [hc2]⟩
          rw [upsert_lookup_absent msgs id s d hm, hspl]
          simp [specMessage, mkMessage, specDLC]
        | some m =>
          have hsp : specLookup P id = some m := (hlk id).symm.trans hm
          obtain ⟨hne, hme⟩ := (specLookup_some_iff P id m).mp hsp
          have hspl : specLookup (P ++ [l]) id =
              some (specMessage id (contribs P id ++ [(s, d)])) :=
            (specLookup_some_iff _ _ _).mpr ⟨by simp [hc, hne], by rw [hc]⟩
          rw [upsert_lookup_present msgs id s d m hm, hspl]
          have hds : (contribs P id).map Prod.snd ≠ [] := by
            intro hcon
            exact hne (by simpa using congrArg List.length hcon)
          subst hme
          simp [specMessage, specDLC_snoc _ d hds]
      · rw [upsert_lookup_ne msgs j id s d hid]
        have hc2 : contribs (P ++ [l]) id = contribs P id := by
          rw [hc, if_neg (fun hcon => hid hcon.symm), List.append_nil]
        rw [specLookup_congr (P ++ [l]) P id hc2]
        exact hlk id

theorem parseSignalLines_foldl (lines : List (List Nat)) :
    ∀ (P : List (List Nat)) (acc : List (Nat × Message) × Bool),
      GoodMap acc.1 P → GoodMap (lines.foldl processLine acc).1 (P ++ lines) := by
  induction lines with
  | nil => intro P acc h; simpa using h
  | cons l ls ih =>
    intro P acc h
    rw [List.foldl_cons]
    have h2 := GoodMap_processLine acc.1 acc.2 P l h
    have h3 := ih (P ++ [l]) (processLine acc l) h2
    simpa [List.append_assoc] using h3

/-- Master description of the built message map: the keys are distinct, and
looking up any id returns `none` when no line contributed to it and the
specified message (synthetic name, running-maximum DLC, contributed signals
in line order) otherwise. -/
theorem parseSignalLines_good (lines : List (List Nat)) :
    GoodMap (parseSignalLines lines).1 lines := by
  have h0 : GoodMap ([] : List (Nat × Message)) [] := by
    refine ⟨by simp, fun id => ?_⟩
    simp [lookupMsg, specLookup, contribs]
  simpa using parseSignalLines_foldl lines [] ([], false) h0

/-! ### Serializer lemmas -/

theorem filterMap_length_all_some {α β : Type} (l : List α) (f : α → Option β)
    (h : ∀ x ∈ l, (f x).isSome) : (l.filterMap f).length = l.length := by
  induction l with
  | nil => rfl
  | cons a t ih =>
    have ha := h a (List.mem_cons_self a t)
    cases hf : f a with
    | none => rw [hf] at ha; simp at ha
    | some b =>
      rw [List.filterMap_cons, hf]
      simp [ih (fun x hx => h x (List.mem_cons_of_mem a hx))]

theorem sortedKeys_sorted (keys : List Nat) :
    List.Sorted (· ≤ ·) (keys.mergeSort (fun a b => decide (a ≤ b))) := by
  have htrans : ∀ a b c : Nat, (fun a b : Nat => decide (a ≤ b)) a b = true →
      (fun a b : Nat => decide (a ≤ b)) b c = true →
      (fun a b : Nat => decide (a ≤ b)) a c = true := by
    intro a b c h1 h2
    simp only [decide_eq_true_eq] at h1 h2 ⊢
    omega
  have htot : ∀ a b : Nat, ((fun a b : Nat => decide (a ≤ b)) a b ||
      (fun a b : Nat => decide (a ≤ b)) b a) = true := by
    intro a b
    rcases Nat.le_total a b with h | h <;> simp [h]
  exact (List.sorted_mergeSort htrans htot keys).imp
    (by intro a b hab; exact of_decide_eq_true hab)

theorem lookupMsg_perm (msgs msgs' : List (Nat × Message))
    (hperm : msgs.Perm msgs') (hnd : (msgs.map Prod.fst).Nodup) (id : Nat) :
    lookupMsg msgs id = lookupMsg msgs' id := by
  have hnd' : (msgs'.map Prod.fst).Nodup := ((hperm.map Prod.fst).nodup_iff).mp hnd
  cases h1 : lookupMsg msgs id with
  | none =>
    have h2 : id ∉ msgs.map Prod.fst := (lookupMsg_eq_none_iff _ _).mp h1
    have h3 : id ∉ msgs'.map Prod.fst := fun hc =>
      h2 (((hperm.map Prod.fst).mem_iff).mpr hc)
    exact ((lookupMsg_eq_none_iff _ _).mpr h3).symm
  | some m =>
    have hmem := lookupMsg_mem msgs id m h1
    exact (lookupMsg_of_mem msgs' id m hnd' (hperm.mem_iff.mp hmem)).symm

/-! ### The claims -/

/-- C1, counterexample.  The claim says a header field consumes the field's
bytes plus 4 more (CRLF plus 2 delimiter bytes).  On the stream
`"AB" CR LF "CDEF"` the header-field read of `processFile` (the
`readUpToCRLF` + `Discard(2)` pair) returns the field `"AB"` and leaves
`"CDEF"` unread: only 4 bytes were consumed (field + 2), not 6 (field + 4),
because `readUpToCRLF` merely peeks at the CR LF and the 2-byte discard
consumes the terminator itself, not a separate delimiter. -/
theorem C1_counterexample :
    readHeaderField false [65, 66, 13, 10, 67, 68, 69, 70] =
      .ok ([65, 66], [67, 68, 69, 70]) ∧
    [67, 68, 69, 70] ≠ ([69, 70] : List Nat) :=
  ⟨rfl, by decide⟩

/-- C1, corrected.  For every stream holding a CRLF-terminated field, the
header-field read returns the field without the terminator and leaves exactly
the bytes after the CR LF: the CR LF is not consumed by `readUpToCRLF` (it
only peeks), and the following 2-byte discard consumes exactly the CR LF, so
the field's bytes plus 2 additional bytes are consumed per header field —
there is no separate 2-byte delimiter after the terminator. -/
theorem C1_header_field_consumes_field_plus_two (e : Bool) (f r : List Nat)
    (hf : hasCRLFpair f = false) :
    readHeaderField e (f ++ 13 :: 10 :: r) = .ok (f, r) ∧
    (f ++ 13 :: 10 :: r).length = f.length + 2 + r.length := by
  refine ⟨readHeaderField_append e f r hf, ?_⟩
  simp only [List.length_append, List.length_cons]
  omega

/-- C1, witness. -/
theorem C1_witness :
    readHeaderField false ([72] ++ 13 :: 10 :: [33]) = .ok ([72], [33]) ∧
    ([72] ++ 13 :: 10 :: [33]).length = [72].length + 2 + [33].length :=
  C1_header_field_consumes_field_plus_two false [72] [33] (by decide)

/-- C2, counterexample.  A container whose serial-block payload cannot be
decompressed (the decompressor here fails on every input, in particular on
the serial payload `[0]`) is still processed to a clean success with no
warning: the serial payload is never decompressed, so an invalid zlib stream
in it is not detected at this step, contrary to the claim. -/
theorem C2_counterexample :
    (fun _ : List Nat => (none : Option (List Nat))) [0] = none ∧
    processContainer (fun _ : List Nat => (none : Option (List Nat))) false
      [13, 10, 13, 10, 0, 1, 0, 0, 0] = some ([], false) := by
  decide

/-- C2, corrected.  Before reading the entry count the reader reads one
length-prefixed block, but only frames it: the payload is discarded without
being decompressed (`processFile` line 141 calls `readZlibStr` only, never
`decompressZlib`).  Consequently the whole conversion result is identical for
any two serial payloads of the same length — in particular a payload that is
not a valid zlib stream is not detected. -/
theorem C2_serial_block_framed_not_decompressed
    (d : List Nat → Option (List Nat)) (e : Bool) (h1 h2 sp sp2 : List Nat)
    (ps : List (List Nat)) (extra : List Nat)
    (hh1 : hasCRLFpair h1 = false) (hh2 : hasCRLFpair h2 = false)
    (hsp : sp.length < 65536) (hlen : sp2.length = sp.length)
    (hn : ps.length < 65536) (hps : ∀ p ∈ ps, p.length < 65536) :
    processContainer d e (containerBytes h1 h2 sp2 ps extra) =
      processContainer d e (containerBytes h1 h2 sp ps extra) := by
  rw [processContainer_spec d e h1 h2 sp ps extra hh1 hh2 hsp hn hps,
    processContainer_spec d e h1 h2 sp2 ps extra hh1 hh2 (by rw [hlen]; exact hsp) hn hps]

/-- C2, witness. -/
theorem C2_witness :
    processContainer (fun _ : List Nat => (none : Option (List Nat))) false
        (containerBytes [] [] [9, 9] [] []) =
      processContainer (fun _ : List Nat => (none : Option (List Nat))) false
        (containerBytes [] [] [1, 2] [] []) :=
  C2_serial_block_framed_not_decompressed _ false [] [] [1, 2] [9, 9] [] []
    (by decide) (by decide) (by decide) (by decide) (by decide) (by decide)

/-- C3, confirmed.  In a well-formed container in which one entry's payload
is framed in full but fails decompression, the conversion does not abort:
the result is a success whose warnings flag is `true`, and the line sequence
is `entryLines d ps` — exactly the non-blank lines of the entries that do
decompress, in entry order (the failing entry is skipped). -/
theorem C3_entry_decompression_failure_skipped
    (d : List Nat → Option (List Nat)) (h1 h2 sp : List Nat)
    (ps : List (List Nat)) (p0 : List Nat)
    (hh1 : hasCRLFpair h1 = false) (hh2 : hasCRLFpair h2 = false)
    (hsp : sp.length < 65536) (hn : ps.length < 65536)
    (hps : ∀ p ∈ ps, p.length < 65536)
    (hmem : p0 ∈ ps) (hfail : d p0 = none) :
    processContainer d false (containerBytes h1 h2 sp ps []) =
      some (entryLines d ps, true) := by
  have hany : anyEntryFails d ps = true :=
    List.any_eq_true.mpr ⟨p0, hmem, by simp [hfail]⟩
  rw [processContainer_spec d false h1 h2 sp ps [] hh1 hh2 hsp hn hps]
  simp [hany]

/-- C3, witness. -/
theorem C3_witness :
    processContainer (fun p => if p = [0] then none else some [65, 10]) false
      (containerBytes [] [] [] [[0], [7]] []) =
      some (entryLines (fun p => if p = [0] then none else some [65, 10])
        [[0], [7]], true) :=
  C3_entry_decompression_failure_skipped _ [] [] [] [[0], [7]] [0]
    (by decide) (by decide) (by decide) (by decide) (by decide) (by decide) (by decide)

/-- C4, confirmed.  The built map holds exactly one message per ID (its key
list is duplicate-free), and the DLC of the message looked up for any ID is
the maximum of the DLC values carried by the lines that contributed to that
ID — membership plus upper bound, a characterization independent of the
order of the lines. -/
theorem C4_dlc_maximum (lines : List (List Nat)) (id : Nat) (m : Message)
    (h : lookupMsg (parseSignalLines lines).1 id = some m) :
    ((parseSignalLines lines).1.map Prod.fst).Nodup ∧
    m.DLC ∈ (contribs lines id).map Prod.snd ∧
    ∀ x ∈ (contribs lines id).map Prod.snd, x ≤ m.DLC := by
  obtain ⟨hnd, hlk⟩ := parseSignalLines_good lines
  obtain ⟨hne, hme⟩ := (specLookup_some_iff lines id m).mp ((hlk id).symm.trans h)
  have hds : (contribs lines id).map Prod.snd ≠ [] := by
    intro hcon
    exact hne (by simpa using hcon)
  have hdlc : m.DLC = specDLC ((contribs lines id).map Prod.snd) := by
    rw [hme]; rfl
  refine ⟨hnd, ?_, ?_⟩
  · rw [hdlc]
    exact specDLC_mem _ hds
  · intro x hx
    rw [hdlc]
    exact specDLC_le _ x hx

def c4lineA : List Nat := bytesOf "A,5,u,0,1,0,1,0,0,signed,intel,8"
def c4lineB : List Nat := bytesOf "B,5,u,0,1,0,1,0,0,signed,intel,3"

def c4sig (n : Nat) : Signal :=
  { Name := [n], StartBit := 0, Length := 1, ByteOrder := 1, IsSigned := true,
    Factor := .num 1, Offset := .num 0, Min := .num 0, Max := .num 0, Unit := [117] }

def c4msg : Message :=
  { ID := 5, Name := bytesOf "CAN_MSG_5", DLC := 8,
    Node := bytesOf "VECTOR__XXX", Signals := [c4sig 65, c4sig 66] }

/-- C4, witness: two lines with the same ID carrying DLCs 8 and 3 yield one
message whose DLC is the maximum, 8. -/
theorem C4_witness :
    ((parseSignalLines [c4lineA, c4lineB]).1.map Prod.fst).Nodup ∧
    c4msg.DLC ∈ (contribs [c4lineA, c4lineB] 5).map Prod.snd ∧
    ∀ x ∈ (contribs [c4lineA, c4lineB] 5).map Prod.snd, x ≤ c4msg.DLC :=
  C4_dlc_maximum [c4lineA, c4lineB] 5 c4msg (by decide)

/-- C5, confirmed.  For every message map (distinct keys, each message stored
under its own ID), the serializer emits exactly one frame block per message
— the block count equals the message count and every stored message's block
appears — in strictly ascending numeric ID order, and the emitted sequence
is unchanged under any permutation of the map's storage order. -/
theorem C5_writeDBC_sorted_blocks (msgs : List (Nat × Message))
    (hnd : (msgs.map Prod.fst).Nodup)
    (hID : ∀ p ∈ msgs, p.2.ID = p.1) :
    (writeDBC msgs).length = msgs.length ∧
    (∀ p ∈ msgs, frameOf p.2 ∈ writeDBC msgs) ∧
    List.Chain' (fun a b => a.id < b.id) (writeDBC msgs) ∧
    ∀ msgs2, msgs.Perm msgs2 → writeDBC msgs2 = writeDBC msgs := by
  have hperm_ids : ((msgs.map Prod.fst).mergeSort (fun a b => decide (a ≤ b))).Perm
      (msgs.map Prod.fst) := List.mergeSort_perm _ _
  have hnod_ids : ((msgs.map Prod.fst).mergeSort (fun a b => decide (a ≤ b))).Nodup :=
    (hperm_ids.nodup_iff).mpr hnd
  have hlt := (sortedKeys_sorted (msgs.map Prod.fst)).lt_of_le hnod_ids
  have hsome : ∀ id ∈ (msgs.map Prod.fst).mergeSort (fun a b => decide (a ≤ b)),
      ((lookupMsg msgs id).map frameOf).isSome := by
    intro id hid
    have hk : id ∈ msgs.map Prod.fst := hperm_ids.mem_iff.mp hid
    cases hl : lookupMsg msgs id with
    | none => exact absurd hk ((lookupMsg_eq_none_iff msgs id).mp hl)
    | some m => simp
  refine ⟨?_, ?_, ?_, ?_⟩
  · simp only [writeDBC]
    rw [filterMap_length_all_some _ _ hsome, hperm_ids.length_eq, List.length_map]
  · intro p hp
    obtain ⟨a, m⟩ := p
    have hka : a ∈ msgs.map Prod.fst := List.mem_map.mpr ⟨(a, m), hp, rfl⟩
    have hia : a ∈ (msgs.map Prod.fst).mergeSort (fun a b => decide (a ≤ b)) :=
      hperm_ids.mem_iff.mpr hka
    have hla : lookupMsg msgs a = some m := lookupMsg_of_mem msgs a m hnd hp
    simp only [writeDBC]
    exact List.mem_filterMap.mpr ⟨a, hia, by rw [hla]; rfl⟩
  · simp only [writeDBC]
    apply List.Pairwise.chain'
    refine List.Pairwise.filterMap _ ?_ hlt
    intro x y hxy b hb b2 hb2
    rw [Option.mem_def, Option.map_eq_some'] at hb hb2
    obtain ⟨mx, hmx, rfl⟩ := hb
    obtain ⟨my, hmy, rfl⟩ := hb2
    have hx : mx.ID = x := hID (x, mx) (lookupMsg_mem msgs x mx hmx)
    have hy : my.ID = y := hID (y, my) (lookupMsg_mem msgs y my hmy)
    simpa [frameOf, hx, hy] using hxy
  · intro msgs2 hperm
    have hkeys : (msgs2.map Prod.fst).Perm (msgs.map Prod.fst) :=
      (hperm.map Prod.fst).symm
    have hids_eq : (msgs2.map Prod.fst).mergeSort (fun a b => decide (a ≤ b)) =
        (msgs.map Prod.fst).mergeSort (fun a b => decide (a ≤ b)) :=
      List.eq_of_perm_of_sorted
        ((List.mergeSort_perm _ _).trans (hkeys.trans (List.mergeSort_perm _ _).symm))
        (sortedKeys_sorted _) (sortedKeys_sorted _)
    simp only [writeDBC, hids_eq]
    refine List.filterMap_congr ?_
    intro x _
    rw [lookupMsg_perm msgs msgs2 hperm hnd x]

def c5m1 : Message :=
  { ID := 1, Name := [77], DLC := 4, Node := [78], Signals := [] }

def c5m2 : Message :=
  { ID := 2, Name := [77], DLC := 8, Node := [78], Signals := [] }

/-- C5, witness: a two-message map stored in descending-ID order serializes
to two blocks in ascending order, and reordering the storage does not change
the output. -/
theorem C5_witness :
    (writeDBC [(2, c5m2), (1, c5m1)]).length = [(2, c5m2), (1, c5m1)].length ∧
    (∀ p ∈ [(2, c5m2), (1, c5m1)], frameOf p.2 ∈ writeDBC [(2, c5m2), (1, c5m1)]) ∧
    List.Chain' (fun a b => a.id < b.id) (writeDBC [(2, c5m2), (1, c5m1)]) ∧
    ∀ msgs2, List.Perm [(2, c5m2), (1, c5m1)] msgs2 →
      writeDBC msgs2 = writeDBC [(2, c5m2), (1, c5m1)] :=
  C5_writeDBC_sorted_blocks [(2, c5m2), (1, c5m1)] (by decide) (by decide)

def c6line : List Nat := bytesOf "S,1,u,10000000000000000000,1,0,1,0,0,unsigned,motorola,8"

/-- C6, counterexample.  The line's start-bit field `10000000000000000000`
fails `strconv.Atoi` (range error), yet the stored start bit is the saturated
`int64` maximum, not the zero value the claim promises for a failed parse;
the signal is still created. -/
theorem C6_counterexample :
    (goAtoi (bytesOf "10000000000000000000")).2 = true ∧
    (lookupMsg (parseSignalLines [c6line]).1 1).map
      (fun m => m.Signals.map Signal.StartBit) = some [9223372036854775807] ∧
    (9223372036854775807 : Int) ≠ 0 := by decide

/-- C6, corrected.  For every line with at least 11 fields and a valid
message ID, no numeric-field failure aborts the line: the signal is created
and appended with exactly the parser results for fields 3–8.  A syntax
failure in an integer or float field yields the zero value, but an
out-of-range value yields the saturated `int64` extreme (integer fields) or
the signed infinity (float fields) together with the discarded error — not
zero. -/
theorem C6_lenient_numeric_fields (msgs : List (Nat × Message)) (w : Bool)
    (line : List Nat) (j : Nat)
    (hlen : ¬(lineParts line).length < 11)
    (hid : goParseUint32 ((lineParts line).getD 1 []) = some j) :
    (∃ m, lookupMsg (processLine (msgs, w) line).1 j = some m ∧
      m.Signals ≠ [] ∧ m.Signals.getLast? = some (mkSig (lineParts line))) ∧
    (∀ f : List Nat, intSyntax f = none → goAtoi f = (0, true)) ∧
    (∀ f : List Nat, floatSyntax f = none → goParseFloat f = (.num 0, true)) ∧
    (∀ (f : List Nat) (v : Int), intSyntax f = some v → maxInt64 < v →
      goAtoi f = (maxInt64, true)) ∧
    (∀ (f : List Nat) (v : Int), intSyntax f = some v → v < minInt64 →
      goAtoi f = (minInt64, true)) ∧
    (∀ (f : List Nat) (q : Rat), floatSyntax f = some (.num q) → maxFiniteF64 < q →
      goParseFloat f = (.inf false, true)) ∧
    (∀ (f : List Nat) (q : Rat), floatSyntax f = some (.num q) → q < -maxFiniteF64 →
      goParseFloat f = (.inf true, true)) := by
  refine ⟨?_, ?_, ?_, ?_, ?_, ?_, ?_⟩
  · have hlr : lineRecord line = some (j, mkSig (lineParts line),
        (dlcParse (lineParts line)).1, (dlcParse (lineParts line)).2) := by
      rw [lineRecord]
      simp only [if_neg hlen, hid]
    have hfst : (processLine (msgs, w) line).1 =
        upsert msgs j (mkSig (lineParts line)) (dlcParse (lineParts line)).1 := by
      simp [processLine, hlr]
    rw [hfst]
    cases hm : lookupMsg msgs j with
    | none =>
      exact ⟨_, upsert_lookup_absent msgs j _ _ hm, by simp, by simp⟩
    | some m0 =>
      refine ⟨_, upsert_lookup_present msgs j _ _ m0 hm, by simp, ?_⟩
      simp
  · intro f hf
    simp [goAtoi, hf]
  · intro f hf
    simp [goParseFloat, hf]
  · intro f v hf hv
    simp [goAtoi, hf, hv]
  · intro f v hf hv
    have h1 : ¬v > maxInt64 := by
      rw [maxInt64]
      rw [minInt64] at hv
      omega
    simp [goAtoi, hf, h1, hv]
  · intro f q hf hq
    simp [goParseFloat, hf, hq]
  · intro f q hf hq
    have hM : (0 : Rat) ≤ maxFiniteF64 := by
      rw [maxFiniteF64]
      exact Nat.cast_nonneg _
    have h1 : ¬q > maxFiniteF64 := by
      intro hc
      have : -maxFiniteF64 ≤ maxFiniteF64 := by linarith
      linarith
    simp [goParseFloat, hf, h1, hq]

/-- C6, witness. -/
theorem C6_witness :
    (∃ m, lookupMsg (processLine (([], false) : List (Nat × Message) × Bool)
        c4lineA).1 5 = some m ∧
      m.Signals ≠ [] ∧ m.Signals.getLast? = some (mkSig (lineParts c4lineA))) ∧
    (∀ f : List Nat, intSyntax f = none → goAtoi f = (0, true)) ∧
    (∀ f : List Nat, floatSyntax f = none → goParseFloat f = (.num 0, true)) ∧
    (∀ (f : List Nat) (v : Int), intSyntax f = some v → maxInt64 < v →
      goAtoi f = (maxInt64, true)) ∧
    (∀ (f : List Nat) (v : Int), intSyntax f = some v → v < minInt64 →
      goAtoi f = (minInt64, true)) ∧
    (∀ (f : List Nat) (q : Rat), floatSyntax f = some (.num q) → maxFiniteF64 < q →
      goParseFloat f = (.inf false, true)) ∧
    (∀ (f : List Nat) (q : Rat), floatSyntax f = some (.num q) → q < -maxFiniteF64 →
      goParseFloat f = (.inf true, true)) :=
  C6_lenient_numeric_fields [] false c4lineA 5 (by decide) (by decide)

/-- C7, confirmed.  A container whose headers, serial block and first
`ps.length` entry blocks are well-formed but whose declared entry count `n`
exceeds the available blocks, the last block declaring `L` bytes with only
`q.length < L` remaining in the stream, is a fatal error: `processContainer`
returns `none`, so no entry of the file is salvaged. -/
theorem C7_truncated_block_fatal (d : List Nat → Option (List Nat)) (e : Bool)
    (h1 h2 sp : List Nat) (n : Nat) (ps : List (List Nat)) (L : Nat) (q : List Nat)
    (hh1 : hasCRLFpair h1 = false) (hh2 : hasCRLFpair h2 = false)
    (hsp : sp.length < 65536) (hn : n < 65536)
    (hps : ∀ p ∈ ps, p.length < 65536) (hcnt : ps.length < n)
    (hq : q.length < L) (hL : L < 65536) :
    processContainer d e
      (h1 ++ 13 :: 10 :: (h2 ++ 13 :: 10 ::
        (block sp ++ (u16be n ++ (blocks ps ++ (u16be L ++ q)))))) = none := by
  rw [processContainer, readHeaderField_append e h1 _ hh1]
  dsimp only
  rw [readHeaderField_append e h2 _ hh2]
  dsimp only
  rw [readZlibStr_block e sp _ hsp]
  dsimp only
  rw [readU16BE_u16be e n _ hn]
  dsimp only
  rw [processEntries_truncated d e ps L q n hps hcnt hq hL]

/-- C7, witness: a container announcing one entry whose block declares 5
bytes while only 1 byte remains is rejected outright. -/
theorem C7_witness :
    processContainer (fun _ : List Nat => (none : Option (List Nat))) false
      ([] ++ 13 :: 10 :: ([] ++ 13 :: 10 ::
        (block [] ++ (u16be 1 ++ (blocks [] ++ (u16be 5 ++ [1])))))) = none :=
  C7_truncated_block_fatal _ false [] [] [] 1 [] 5 [1]
    (by decide) (by decide) (by decide) (by decide) (by decide) (by decide)
    (by decide) (by decide)

/-- C8, confirmed.  After the entry loop: trailing bytes make the run succeed
with the warnings flag forced `true` and the parsed lines unchanged; with no
trailing bytes, a clean end of stream adds no anomaly (the flag is exactly
the entry-loop flag); and a non-EOF read failure at this final one-byte check
is fatal. -/
theorem C8_trailing_byte_check (d : List Nat → Option (List Nat))
    (h1 h2 sp : List Nat) (ps : List (List Nat)) (extra : List Nat)
    (hh1 : hasCRLFpair h1 = false) (hh2 : hasCRLFpair h2 = false)
    (hsp : sp.length < 65536) (hn : ps.length < 65536)
    (hps : ∀ p ∈ ps, p.length < 65536) :
    (extra ≠ [] → ∀ e, processContainer d e (containerBytes h1 h2 sp ps extra) =
      some (entryLines d ps, true)) ∧
    processContainer d false (containerBytes h1 h2 sp ps []) =
      some (entryLines d ps, anyEntryFails d ps) ∧
    processContainer d true (containerBytes h1 h2 sp ps []) = none := by
  refine ⟨?_, ?_, ?_⟩
  · intro hne e
    rw [processContainer_spec d e h1 h2 sp ps extra hh1 hh2 hsp hn hps]
    cases extra with
    | nil => exact absurd rfl hne
    | cons b t => cases e <;> rfl
  · rw [processContainer_spec d false h1 h2 sp ps [] hh1 hh2 hsp hn hps]
  · rw [processContainer_spec d true h1 h2 sp ps [] hh1 hh2 hsp hn hps]

/-- C8, witness. -/
theorem C8_witness :
    ([7] ≠ ([] : List Nat) → ∀ e, processContainer (fun p => some p) e
      (containerBytes [72] [] [9] [[3]] [7]) =
      some (entryLines (fun p => some p) [[3]], true)) ∧
    processContainer (fun p => some p) false (containerBytes [72] [] [9] [[3]] []) =
      some (entryLines (fun p => some p) [[3]], anyEntryFails (fun p => some p) [[3]]) ∧
    processContainer (fun p => some p) true (containerBytes [72] [] [9] [[3]] []) = none :=
  C8_trailing_byte_check _ [72] [] [9] [[3]] [7]
    (by decide) (by decide) (by decide) (by decide) (by decide)

def c9line : List Nat := bytesOf "A,1,u,0,1,0,1,0,0,signed,intel,8"

/-- C9, counterexample.  Two identical lines (same message ID, same signal
name `A`) produce one message whose two signals both carry the name `A`:
signal-name uniqueness within a message is not enforced by the builder. -/
theorem C9_counterexample :
    (lookupMsg (parseSignalLines [c9line, c9line]).1 1).map
      (fun m => m.Signals.map Signal.Name) = some [[65], [65]] ∧
    ¬([[65], [65]] : List (List Nat)).Nodup := by decide

/-- C9, corrected.  The builder does not enforce signal-name uniqueness: a
message's signal names are exactly the field-0 values of the lines that
contributed to it, in input order, so duplicated names in the input appear
duplicated in the message. -/
theorem C9_signal_names_from_field0 (lines : List (List Nat)) (id : Nat)
    (m : Message) (h : lookupMsg (parseSignalLines lines).1 id = some m) :
    m.Signals.map Signal.Name = (contribs lines id).map (fun c => c.1.Name) := by
  obtain ⟨hnd, hlk⟩ := parseSignalLines_good lines
  obtain ⟨hne, hme⟩ := (specLookup_some_iff lines id m).mp ((hlk id).symm.trans h)
  rw [hme]
  simp [specMessage, Function.comp]

def c9msg : Message :=
  { ID := 1, Name := bytesOf "CAN_MSG_1", DLC := 8,
    Node := bytesOf "VECTOR__XXX", Signals := [c4sig 65, c4sig 65] }

/-- C9, witness. -/
theorem C9_witness :
    c9msg.Signals.map Signal.Name =
      (contribs [c9line, c9line] 1).map (fun c => c.1.Name) :=
  C9_signal_names_from_field0 [c9line, c9line] 1 c9msg (by decide)

/-- C10, confirmed.  A line with at least 11 fields whose message-ID field is
all digits but exceeds 4294967295, or contains any non-digit byte (signs
included), is skipped exactly as an unparseable ID: the map is returned
unchanged — no message is created or modified, no signal appended — and the
warnings flag is set. -/
theorem C10_invalid_message_id_skipped (msgs : List (Nat × Message)) (w : Bool)
    (line : List Nat)
    (hlen : ¬(lineParts line).length < 11)
    (hbad : ((((lineParts line).getD 1 []).all isDigitB = true) ∧
        4294967295 < natOfDigits ((lineParts line).getD 1 [])) ∨
      ∃ c ∈ (lineParts line).getD 1 [], isDigitB c = false) :
    processLine (msgs, w) line = (msgs, true) := by
  have hp : goParseUint32 ((lineParts line).getD 1 []) = none := by
    set s := (lineParts line).getD 1 [] with hs
    rcases hbad with ⟨hall, hval⟩ | ⟨c, hc, hcd⟩
    · have hne : s.isEmpty = false := by
        cases hs2 : s with
        | nil =>
          rw [hs2] at hval
          exact absurd hval (by simp [natOfDigits])
        | cons a t => rfl
      have hnl : ¬natOfDigits s < 4294967296 := by omega
      simp [goParseUint32, hne, hall, hnl]
    · have hall2 : s.all isDigitB = false := by
        rw [List.all_eq_false]
        exact ⟨c, hc, by simp [hcd]⟩
      simp [goParseUint32, hall2]
  have hlr : lineRecord line = none := by
    rw [lineRecord]
    simp only [if_neg hlen, hp]
  simp [processLine, hlr]

def c10line : List Nat := bytesOf "A,4294967296,u,0,1,0,1,0,0,signed,intel,8"

/-- C10, witness: the ID field `4294967296` (one past the unsigned 32-bit
maximum) makes the line be skipped with a warning and leaves the map
unchanged. -/
theorem C10_witness :
    processLine (([], false) : List (Nat × Message) × Bool) c10line = ([], true) :=
  C10_invalid_message_id_skipped [] false c10line (by decide) (by decide)
